import Mathlib

/-!
Verification of the `rail` file-tailing utility (src/src/main.rs).

File contents are modelled as `List Char` (one `Char` per byte of the
text; the bytes `'\n'` and `'\r'` that all line handling inspects are
single bytes, so this is faithful for the line-level claims).  The
initial tail (`tail_file`, main.rs lines 135-167), the follow-mode poll
loop (`follow_file`, lines 169-253) and the argument handling of `main`
(lines 46-133) are embedded as executable Lean functions below.
-/

namespace Rail

/-- One `BufRead::read_line` result: the chars of `l` up to and
including the first `'\n'`, or all of `l` when no `'\n'` occurs
(main.rs line 142 / line 224 read a line in exactly this way). -/

def takeLine : List Char → List Char
  | [] => []
  | c :: cs => if c = '\n' then ['\n'] else c :: takeLine cs

/-- The rest of the input after one `read_line` call. -/

def dropAfterLine : List Char → List Char
  | [] => []
  | c :: cs => if c = '\n' then cs else dropAfterLine cs

/-- Helper for `splitLines`: the fuel argument only bounds the number
of loop iterations so that the recursion is structural; `l.length` fuel
is always enough because every `read_line` consumes at least one
character of a nonempty rest. -/

def splitLinesAux : Nat → List Char → List (List Char)
  | 0, _ => []
  | _ + 1, [] => []
  | fuel + 1, c :: cs => takeLine (c :: cs) :: splitLinesAux fuel (dropAfterLine (c :: cs))

/-- The file split into lines, as the successive `read_line` calls of
the loop at main.rs lines 142-159 produce them. -/

def splitLines (l : List Char) : List (List Char) :=
  splitLinesAux l.length l

/-- Rust's `line.ends_with("\r\n")` (main.rs line 144 / line 228). -/

def endsCRLF : List Char → Bool
  | [] => false
  | [_] => false
  | [c, c'] => c = '\r' && c' = '\n'
  | _ :: c' :: c'' :: cs => endsCRLF (c' :: c'' :: cs)

/-- Rust's `line.ends_with('\n')` (main.rs line 148). -/

def endsLF : List Char → Bool
  | [] => false
  | [c] => c = '\n'
  | _ :: c' :: cs => endsLF (c' :: cs)

/-- Line-ending normalization of the initial tail, main.rs lines
144-152: a `"\r\n"` suffix is rewritten to `"\n"` (two `pop`s and a
`push('\n')`); a line already ending in `'\n'` is unchanged; otherwise
`'\n'` is appended. -/

def normalizeLine (l : List Char) : List Char :=
  if endsCRLF l then l.dropLast.dropLast ++ ['\n']
  else if endsLF l then l
  else l ++ ['\n']

/-- One iteration of the bounded buffer of `tail_file`, main.rs lines
154-157: push the normalized line, then drop the oldest element
(`lines.remove(0)`) when the length exceeds `n`. -/

def tailStep (n : Nat) (buf : List (List Char)) (l : List Char) :
    List (List Char) :=
  if n < (buf ++ [normalizeLine l]).length then (buf ++ [normalizeLine l]).drop 1
  else buf ++ [normalizeLine l]

/-- The buffer `tail_file` holds after reading the whole file. -/

def tailLines (content : List Char) (n : Nat) : List (List Char) :=
  (splitLines content).foldl (tailStep n) []

/-- The complete output of `tail_file` (main.rs lines 135-167): the
retained lines printed in order. -/

def tail_file (content : List Char) (n : Nat) : List Char :=
  (tailLines content n).flatten

/-- The last `n` elements of a list. -/

def lastN (n : Nat) (l : List α) : List α := l.drop (l.length - n)

/-- The specification-side description of the initial tail: the last
`min n L` lines of the file, in order, each normalized. -/

def specTailLines (content : List Char) (n : Nat) : List (List Char) :=
  lastN n ((splitLines content).map normalizeLine)

/-! ## Follow mode (`follow_file`, main.rs lines 169-253)

The follow loop is modelled one poll iteration at a time.  The loop
state is the read cursor `pos` and the last-seen modification time
(main.rs lines 184-189).  Each iteration observes the filesystem: the
file's current content (its length is the metadata size; reads through
the freshly-seeked handle see the same content) and modification time,
plus three flags scripting whether each fallible call of that iteration
fails: the metadata query at line 193, the reopen at line 203, and the
metadata query of the truncation check at line 243.  Console output and
sleeps are recorded as an event list. -/

/-- An observable action of one follow-loop iteration. -/

inductive Event where
  /-- A chunk written to standard output (lines 234-235). -/
  | emit (s : List Char)
  /-- The rotation notice of line 200. -/
  | rotationNotice
  /-- The truncation notice of line 246. -/
  | truncationNotice
  /-- The 100 ms no-data sleep of line 240. -/
  | sleepMs100
  /-- The 1 s retry backoff sleep (line 212). -/
  | sleepSec1
  /-- A logged error message under retry (line 211). -/
  | logRetry
  deriving DecidableEq

/-- Which fallible call of the loop produced a propagated error. -/

inductive FsError where
  /-- The per-poll metadata query failed (line 215, `return Err(e)`). -/
  | metaErr
  /-- The reopen after rotation detection failed (`?` at line 203). -/
  | openErr
  /-- The metadata query of the truncation check failed (`?` at line 243). -/
  | metaErr2
  deriving DecidableEq

/-- The follow loop's mutable state: the byte cursor `pos` (line 184)
and the last observed modification time (line 186). -/

structure FollowState where
  pos : Nat
  lastMod : Nat
  deriving DecidableEq

/-- One iteration's filesystem observation. -/

structure PollIn where
  /-- The file's content at this poll; its length is the metadata size. -/
  content : List Char
  /-- The file's modification time at this poll. -/
  mtime : Nat
  /-- Whether the metadata query at line 193 fails this iteration. -/
  metaFail : Bool
  /-- Whether the reopen at line 203 fails this iteration. -/
  openFail : Bool
  /-- Whether the truncation-check metadata query at line 243 fails. -/
  metaFail2 : Bool
  deriving DecidableEq

/-- `read_line` starting at byte offset `pos` (seek at line 221, read
at line 224). -/

def readLineFrom (content : List Char) (pos : Nat) : List Char :=
  takeLine (content.drop pos)

/-- Line-ending handling of follow mode, main.rs lines 228-232: only a
`"\r\n"` suffix is rewritten to `"\n"`; nothing is appended otherwise. -/

def normalizeFollow (l : List Char) : List Char :=
  if endsCRLF l then l.dropLast.dropLast ++ ['\n'] else l

/-- The read-and-emit phase of one iteration, main.rs lines 220-251:
seek to `pos`, read one line; on data, normalize and emit it and
advance the cursor; on no data, sleep 100 ms and run the truncation
check (whose metadata query propagates failure via `?`). -/

def followRead (pos newMod : Nat) (i : PollIn) (evs : List Event) :
    Except FsError (FollowState × List Event) :=
  if 0 < (readLineFrom i.content pos).length then
    .ok (⟨pos + (readLineFrom i.content pos).length, newMod⟩,
         evs ++ [.emit (normalizeFollow (readLineFrom i.content pos))])
  else if i.metaFail2 then
    .error .metaErr2
  else if i.content.length < pos then
    .ok (⟨0, newMod⟩, evs ++ [.sleepMs100, .truncationNotice])
  else
    .ok (⟨pos, newMod⟩, evs ++ [.sleepMs100])

/-- One iteration of the follow loop, main.rs lines 191-252.  The
metadata query may fail (retried under the retry policy, fatal
otherwise, lines 209-217); then the rotation check at line 199 (a
changed modification time together with a size below the cursor)
reopens the file — propagating any open failure via `?` — and resets
the cursor to 0; the last-seen modification time is recorded, and the
read phase runs. -/

def followStep (retry : Bool) (s : FollowState) (i : PollIn) :
    Except FsError (FollowState × List Event) :=
  if i.metaFail then
    if retry then .ok (s, [.logRetry, .sleepSec1])
    else .error .metaErr
  else
    if i.mtime ≠ s.lastMod ∧ i.content.length < s.pos then
      if i.openFail then .error .openErr
      else followRead 0 i.mtime i [.rotationNotice]
    else followRead s.pos i.mtime i []

/-- Running the follow loop over a finite list of poll observations,
accumulating events. -/

def runFollow (retry : Bool) (s : FollowState) :
    List PollIn → Except FsError (FollowState × List Event)
  | [] => .ok (s, [])
  | i :: is =>
      match followStep retry s i with
      | .error e => .error e
      | .ok (s', evs) =>
          match runFollow retry s' is with
          | .error e => .error e
          | .ok (s'', evs') => .ok (s'', evs ++ evs')

/-- The recursive retrying open at the start of `follow_file`, main.rs
lines 170-181, run against a finite script of open failures (`true` =
this attempt fails).  The result counts the failed attempts consumed
before the first success; the open succeeds as soon as the script is
exhausted or yields `false`. -/

def followOpen (retry : Bool) : List Bool → Except FsError Nat
  | [] => .ok 0
  | false :: _ => .ok 0
  | true :: rest =>
      if retry then
        match followOpen retry rest with
        | .ok k => .ok (k + 1)
        | .error e => .error e
      else .error .openErr

deriving instance DecidableEq for Except

/-! ### Multi-poll traces

For the exactly-once claims the loop is run over a list of poll
observations whose contents form an append-only chain.  The following
reference functions restate what the cursor, the consumed chunks and
the event trace must be. -/

/-- The cursor after a sequence of normal polls. -/

def followFinalPos : Nat → List PollIn → Nat
  | pos, [] => pos
  | pos, i :: is => followFinalPos (pos + (readLineFrom i.content pos).length) is

/-- The raw (pre-normalization) chunk consumed by each poll. -/

def followChunks : Nat → List PollIn → List (List Char)
  | _, [] => []
  | pos, i :: is =>
      readLineFrom i.content pos
        :: followChunks (pos + (readLineFrom i.content pos).length) is

/-- The events of a sequence of normal polls: each poll either emits
its normalized chunk or sleeps 100 ms when no data is available. -/

def followTraceEvents : Nat → List PollIn → List Event
  | _, [] => []
  | pos, i :: is =>
      (if readLineFrom i.content pos = [] then [Event.sleepMs100]
       else [Event.emit (normalizeFollow (readLineFrom i.content pos))])
        ++ followTraceEvents (pos + (readLineFrom i.content pos).length) is

/-- The last-seen modification time after a sequence of polls. -/

def finalMtime : Nat → List PollIn → Nat
  | m, [] => m
  | _, i :: is => finalMtime i.mtime is

/-- The content of the last poll observation (default `d` when none). -/

def lastContent : List Char → List PollIn → List Char
  | d, [] => d
  | _, i :: is => lastContent i.content is

/-! ## CLI entry (`main`, main.rs lines 46-133) -/

/-- The usage message printed to standard error when no filename is
given, main.rs lines 53-56 (the retry description's contraction is
written out as "it is"). -/

def usageLines (prog : String) : List String :=
  ["Usage: " ++ prog ++ " <filename> [-f] [-n lines]",
   "  -f              Follow mode: output appended data as the file grows",
   "  -n <num_lines>  Output the last NUM lines (default: 10)",
   "  --retry         Keep trying to open the file if it is not accessible"]

/-- A usage error of the flag loop; each exits with status 1
(main.rs lines 82, 88, 93). -/

inductive ArgError where
  | invalidNum (s : String)
  | missingNum
  | unknownFlag (s : String)
  deriving DecidableEq

/-- The flag configuration accumulated by `main`, lines 61-63. -/

structure Config where
  follow : Bool := false
  numLines : Nat := 10
  retry : Bool := false
  deriving DecidableEq

/-- The argument loop of `main`, lines 65-96; `-n` values are parsed
as nonnegative decimal integers, as `parse::<usize>()` does. -/

def parseFlags : List String → Config → Except ArgError Config
  | [], c => .ok c
  | "-f" :: rest, c => parseFlags rest { c with follow := true }
  | "--retry" :: rest, c => parseFlags rest { c with retry := true }
  | ["-n"], _ => .error .missingNum
  | "-n" :: v :: rest, c =>
      match v.toNat? with
      | some k => parseFlags rest { c with numLines := k }
      | none => .error (.invalidNum v)
  | a :: _, _ => .error (.unknownFlag a)

/-- What the entry point does before touching the file: print usage,
fail on bad flags, or proceed to the file phase with a parsed
configuration. -/

inductive MainStart where
  | usage (stderrLines : List String)
  | argFailure (e : ArgError)
  | run (filename : String) (c : Config)
  deriving DecidableEq

/-- The start of `main`, lines 50-96: `argv` is the program name `prog`
followed by `args`; with fewer than two elements in total (no
filename, lines 52-58) the usage message goes to standard error and
`main` returns `Ok(())`; only the `run` outcome continues to the code
that touches the file (line 99 onward). -/

def mainStart (prog : String) (args : List String) : MainStart :=
  match args with
  | [] => .usage (usageLines prog)
  | filename :: rest =>
      match parseFlags rest {} with
      | .ok c => .run filename c
      | .error e => .argFailure e

/-- The exit status fixed before the file phase: the usage display
exits 0 (`return Ok(())`, line 57), argument errors exit 1; `none`
when the run proceeds to the file phase. -/

def startExit : MainStart → Option Nat
  | .usage _ => some 0
  | .argFailure _ => some 1
  | .run _ _ => none

/-- The outcome of the initial-tail block of `main`. -/

inductive TailPhaseOutcome where
  | proceed
  | exitOne
  deriving DecidableEq

/-- The initial-tail block of `main`, lines 112-124, as a function of
whether its single `tail_file` call fails: on failure the error is
logged; with retry the process prints the retry message, sleeps one
second and falls through to the follow phase; without retry it exits
with status 1.  The `Nat` component counts the `tail_file`
invocations the block performs — the straight-line code contains
exactly one call and no loop around it. -/

def mainTailPhase (retry : Bool) (tailFails : Bool) :
    TailPhaseOutcome × Nat × List Event :=
  if tailFails then
    if retry then (.proceed, 1, [.logRetry, .sleepSec1])
    else (.exitOne, 1, [.logRetry])
  else (.proceed, 1, [])

theorem takeLine_length_le (l : List Char) : (takeLine l).length ≤ l.length := by
  induction l with
  | nil => simp [takeLine]
  | cons c cs ih =>
      simp only [takeLine]
      split
      · simp
      · simpa using Nat.succ_le_succ ih

theorem dropAfterLine_length_le (l : List Char) :
    (dropAfterLine l).length ≤ l.length := by
  induction l with
  | nil => simp [dropAfterLine]
  | cons c cs ih =>
      simp only [dropAfterLine]
      split
      · simp
      · exact Nat.le_succ_of_le ih

theorem dropAfterLine_length_lt (c : Char) (cs : List Char) :
    (dropAfterLine (c :: cs)).length < (c :: cs).length := by
  simp only [dropAfterLine]
  split
  · simp
  · exact Nat.lt_succ_of_le (dropAfterLine_length_le cs)

theorem takeLine_append_dropAfterLine (l : List Char) :
    takeLine l ++ dropAfterLine l = l := by
  induction l with
  | nil => simp [takeLine, dropAfterLine]
  | cons c cs ih =>
      simp only [takeLine, dropAfterLine]
      split
      · next h => simp [h]
      · simpa using ih

theorem dropAfterLine_eq_drop (l : List Char) :
    dropAfterLine l = l.drop (takeLine l).length := by
  induction l with
  | nil => simp [takeLine, dropAfterLine]
  | cons c cs ih =>
      simp only [takeLine, dropAfterLine]
      split
      · simp
      · simpa using ih

theorem endsLF_iff (l : List Char) : endsLF l = true ↔ l.getLast? = some '\n' := by
  induction l with
  | nil => simp [endsLF]
  | cons c cs ih =>
      cases cs with
      | nil => simp [endsLF]
      | cons c' cs' =>
          rw [List.getLast?_cons_cons]
          exact ih

theorem endsCRLF_decompose (l : List Char) (h : endsCRLF l = true) :
    l.dropLast.dropLast ++ ['\r', '\n'] = l := by
  induction l with
  | nil => simp [endsCRLF] at h
  | cons c cs ih =>
      cases cs with
      | nil => simp [endsCRLF] at h
      | cons c' cs' =>
          cases cs' with
          | nil =>
              simp only [endsCRLF, Bool.and_eq_true, decide_eq_true_eq] at h
              obtain ⟨h1, h2⟩ := h
              subst h1; subst h2
              rfl
          | cons c'' cs'' =>
              have h' : endsCRLF (c' :: c'' :: cs'') = true := h
              have := ih h'
              calc (c :: c' :: c'' :: cs'').dropLast.dropLast ++ ['\r', '\n']
                  = c :: ((c' :: c'' :: cs'').dropLast.dropLast ++ ['\r', '\n']) := by
                    simp [List.dropLast]
                _ = c :: (c' :: c'' :: cs'') := by rw [this]

theorem normalizeLine_getLast (l : List Char) :
    (normalizeLine l).getLast? = some '\n' := by
  unfold normalizeLine
  split
  · rw [List.getLast?_concat]
  · split
    · next h => exact (endsLF_iff l).mp h
    · rw [List.getLast?_concat]

theorem lastN_of_length_le (h : l.length ≤ n) : lastN n l = l := by
  unfold lastN
  rw [Nat.sub_eq_zero_of_le h, List.drop_zero]

theorem lastN_zero (l : List α) : lastN 0 l = [] := by
  unfold lastN
  simp

theorem lastN_cons (a : α) (l : List α) (h : n ≤ l.length) :
    lastN n (a :: l) = lastN n l := by
  unfold lastN
  have : (a :: l).length - n = (l.length - n) + 1 := by
    simp only [List.length_cons]; omega
  rw [this, List.drop_succ_cons]

theorem lastN_length (n : Nat) (l : List α) :
    (lastN n l).length = min n l.length := by
  unfold lastN
  rw [List.length_drop]
  omega

theorem tailStep_eq_of_lt (n : Nat) (buf : List (List Char)) (l : List Char)
    (h : n < (buf ++ [normalizeLine l]).length) :
    tailStep n buf l = (buf ++ [normalizeLine l]).drop 1 := by
  unfold tailStep
  rw [if_pos h]

theorem tailStep_eq_of_le (n : Nat) (buf : List (List Char)) (l : List Char)
    (h : ¬ n < (buf ++ [normalizeLine l]).length) :
    tailStep n buf l = buf ++ [normalizeLine l] := by
  unfold tailStep
  rw [if_neg h]

theorem tailStep_length (n : Nat) (buf : List (List Char)) (l : List Char)
    (h : buf.length ≤ n) : (tailStep n buf l).length ≤ n := by
  by_cases hov : n < (buf ++ [normalizeLine l]).length
  · rw [tailStep_eq_of_lt n buf l hov]
    simp only [List.length_drop, List.length_append, List.length_cons, List.length_nil] at *
    omega
  · rw [tailStep_eq_of_le n buf l hov]
    exact Nat.le_of_not_lt hov

theorem foldl_tailStep (n : Nat) :
    ∀ (ls : List (List Char)) (buf : List (List Char)), buf.length ≤ n →
      ls.foldl (tailStep n) buf = lastN n (buf ++ ls.map normalizeLine) := by
  intro ls
  induction ls with
  | nil =>
      intro buf h
      simpa using (lastN_of_length_le h).symm
  | cons a ls ih =>
      intro buf h
      simp only [List.foldl_cons, List.map_cons]
      by_cases hov : n < (buf ++ [normalizeLine a]).length
      · rw [tailStep_eq_of_lt n buf a hov]
        have hbe : buf.length = n := by
          simp only [List.length_append, List.length_cons, List.length_nil] at hov
          omega
        have hlen : ((buf ++ [normalizeLine a]).drop 1).length ≤ n := by
          simp only [List.length_drop, List.length_append, List.length_cons, List.length_nil]
          omega
        rw [ih _ hlen]
        cases buf with
        | nil =>
            have hn : n = 0 := by simpa using hbe.symm
            subst hn
            simp [lastN_zero]
        | cons b bs =>
            simp only [List.cons_append, List.drop_succ_cons, List.drop_zero]
            have hge : n ≤ (bs ++ [normalizeLine a] ++ ls.map normalizeLine).length := by
              simp only [List.length_append, List.length_cons, List.length_map, List.length_nil]
              simp only [List.length_cons] at hbe
              omega
            calc lastN n (bs ++ [normalizeLine a] ++ ls.map normalizeLine)
                = lastN n (b :: (bs ++ [normalizeLine a] ++ ls.map normalizeLine)) :=
                  (lastN_cons _ _ hge).symm
              _ = lastN n (b :: bs ++ normalizeLine a :: ls.map normalizeLine) := by
                  simp
      · rw [tailStep_eq_of_le n buf a hov]
        have hlen : (buf ++ [normalizeLine a]).length ≤ n := Nat.le_of_not_lt hov
        rw [ih _ hlen]
        simp

theorem tailLines_eq_spec (content : List Char) (n : Nat) :
    tailLines content n = specTailLines content n := by
  unfold tailLines specTailLines
  rw [foldl_tailStep n (splitLines content) [] (by simp)]
  simp

theorem readLineFrom_pos_le (c : List Char) (pos : Nat) (h : pos ≤ c.length) :
    pos + (readLineFrom c pos).length ≤ c.length := by
  have hk := takeLine_length_le (c.drop pos)
  rw [List.length_drop] at hk
  have heq : (readLineFrom c pos).length = (takeLine (c.drop pos)).length := rfl
  omega

theorem readLineFrom_empty (c : List Char) (pos : Nat) (h : c.length ≤ pos) :
    readLineFrom c pos = [] := by
  unfold readLineFrom
  rw [List.drop_eq_nil_of_le h]
  rfl

theorem readLineFrom_append_drop (c : List Char) (pos : Nat) :
    readLineFrom c pos ++ c.drop (pos + (readLineFrom c pos).length) = c.drop pos := by
  have h2 : c.drop (pos + (readLineFrom c pos).length)
      = (c.drop pos).drop (readLineFrom c pos).length :=
    (List.drop_drop _ pos c).symm
  rw [h2]
  unfold readLineFrom
  have h1 := takeLine_append_dropAfterLine (c.drop pos)
  rw [dropAfterLine_eq_drop] at h1
  exact h1

theorem followRead_emit (pos newMod : Nat) (i : PollIn) (evs : List Event)
    (h : readLineFrom i.content pos ≠ []) :
    followRead pos newMod i evs =
      .ok (⟨pos + (readLineFrom i.content pos).length, newMod⟩,
           evs ++ [.emit (normalizeFollow (readLineFrom i.content pos))]) := by
  unfold followRead
  rw [if_pos (List.length_pos.mpr h)]

theorem followRead_noData (pos newMod : Nat) (i : PollIn) (evs : List Event)
    (h : readLineFrom i.content pos = []) (h2 : i.metaFail2 = false)
    (hsz : ¬ i.content.length < pos) :
    followRead pos newMod i evs = .ok (⟨pos, newMod⟩, evs ++ [.sleepMs100]) := by
  unfold followRead
  rw [if_neg (by simp [h]), h2, if_neg (by simp), if_neg hsz]

theorem followRead_truncation (pos newMod : Nat) (i : PollIn) (evs : List Event)
    (h : readLineFrom i.content pos = []) (h2 : i.metaFail2 = false)
    (hsz : i.content.length < pos) :
    followRead pos newMod i evs =
      .ok (⟨0, newMod⟩, evs ++ [.sleepMs100, .truncationNotice]) := by
  unfold followRead
  rw [if_neg (by simp [h]), h2, if_neg (by simp), if_pos hsz]

theorem followRead_metaErr (pos newMod : Nat) (i : PollIn) (evs : List Event)
    (h : readLineFrom i.content pos = []) (h2 : i.metaFail2 = true) :
    followRead pos newMod i evs = .error .metaErr2 := by
  unfold followRead
  rw [if_neg (by simp [h]), h2, if_pos rfl]

/-- One normal poll (no failures, no shrink): the cursor advances by the
byte count of the read, the modification time is recorded, and either
the normalized chunk is emitted or the loop sleeps 100 ms. -/

theorem followStep_normal (retry : Bool) (s : FollowState) (i : PollIn)
    (h1 : i.metaFail = false) (h2 : i.metaFail2 = false)
    (hpos : s.pos ≤ i.content.length) :
    followStep retry s i =
      .ok (⟨s.pos + (readLineFrom i.content s.pos).length, i.mtime⟩,
        if readLineFrom i.content s.pos = [] then [.sleepMs100]
        else [.emit (normalizeFollow (readLineFrom i.content s.pos))]) := by
  unfold followStep
  rw [h1]
  simp only [Bool.false_eq_true, if_false]
  rw [if_neg (fun hc => absurd hc.2 (Nat.not_lt.mpr hpos))]
  by_cases hch : readLineFrom i.content s.pos = []
  · rw [followRead_noData s.pos i.mtime i [] hch h2 (Nat.not_lt.mpr hpos)]
    simp [hch]
  · rw [followRead_emit s.pos i.mtime i [] hch]
    simp [hch]

/-- The rotation branch of one poll (changed modification time and a
size below the cursor, all calls succeeding): a rotation notice, cursor
reset to 0, then an immediate read from offset 0 of the new content. -/

theorem followStep_rotation (retry : Bool) (s : FollowState) (i : PollIn)
    (h1 : i.metaFail = false) (ho : i.openFail = false) (h2 : i.metaFail2 = false)
    (hmt : i.mtime ≠ s.lastMod) (hsz : i.content.length < s.pos) :
    followStep retry s i =
      .ok (⟨(readLineFrom i.content 0).length, i.mtime⟩,
        .rotationNotice ::
          (if readLineFrom i.content 0 = [] then [.sleepMs100]
           else [.emit (normalizeFollow (readLineFrom i.content 0))])) := by
  unfold followStep
  rw [h1]
  simp only [Bool.false_eq_true, if_false]
  rw [if_pos ⟨hmt, hsz⟩, ho]
  simp only [Bool.false_eq_true, if_false]
  by_cases hch : readLineFrom i.content 0 = []
  · rw [followRead_noData 0 i.mtime i [.rotationNotice] hch h2 (by omega)]
    simp [hch]
  · rw [followRead_emit 0 i.mtime i [.rotationNotice] hch]
    simp [hch]

/-- The truncation branch of one poll (size below the cursor with an
unchanged modification time, all calls succeeding): the empty read,
the 100 ms sleep, a truncation notice, cursor reset to 0. -/

theorem followStep_truncation (retry : Bool) (s : FollowState) (i : PollIn)
    (h1 : i.metaFail = false) (h2 : i.metaFail2 = false)
    (hmt : i.mtime = s.lastMod) (hsz : i.content.length < s.pos) :
    followStep retry s i =
      .ok (⟨0, i.mtime⟩, [.sleepMs100, .truncationNotice]) := by
  unfold followStep
  rw [h1]
  simp only [Bool.false_eq_true, if_false]
  rw [if_neg (fun hc => hc.1 hmt)]
  have hch : readLineFrom i.content s.pos = [] :=
    readLineFrom_empty i.content s.pos (Nat.le_of_lt hsz)
  rw [followRead_truncation s.pos i.mtime i [] hch h2 hsz]
  rfl

/-- Core trace lemma: over any run of fault-free polls whose contents
are all prefixes of a final content `F` and grow monotonically, with
the cursor initially within the first content, the loop returns the
predicted state and events, and the consumed chunks concatenate to
exactly the segment of `F` between the initial and final cursor —
every byte of that segment consumed exactly once, none skipped. -/
theorem runFollow_spec (retry : Bool) (F : List Char) :
    ∀ (ins : List PollIn) (s : FollowState),
      (∀ i ∈ ins, i.metaFail = false ∧ i.metaFail2 = false) →
      List.Chain' (fun a b => a.content <+: b.content) ins →
      (∀ i ∈ ins.take 1, s.pos ≤ i.content.length) →
      (∀ i ∈ ins, i.content <+: F) →
      runFollow retry s ins
          = .ok (⟨followFinalPos s.pos ins, finalMtime s.lastMod ins⟩,
                 followTraceEvents s.pos ins)
        ∧ (followChunks s.pos ins).flatten ++ F.drop (followFinalPos s.pos ins)
            = F.drop s.pos := by
  intro ins
  induction ins with
  | nil =>
      intro s _ _ _ _
      refine ⟨rfl, ?_⟩
      simp [followChunks, followFinalPos]
  | cons i is ih =>
      intro s hflags hchain hpos hF
      have hi : i.metaFail = false ∧ i.metaFail2 = false := hflags i (by simp)
      have hple : s.pos ≤ i.content.length := hpos i (by simp)
      have hstep := followStep_normal retry s i hi.1 hi.2 hple
      have hbound : s.pos + (readLineFrom i.content s.pos).length ≤ i.content.length :=
        readLineFrom_pos_le i.content s.pos hple
      have hchain' : List.Chain' (fun a b => a.content <+: b.content) is := hchain.tail
      have hpos' : ∀ j ∈ is.take 1,
          s.pos + (readLineFrom i.content s.pos).length ≤ j.content.length := by
        intro j hj
        cases is with
        | nil => simp at hj
        | cons i' is' =>
            have hj' : j = i' := by simpa using hj
            subst hj'
            have hpre : i.content <+: j.content := (List.chain'_cons.mp hchain).1
            exact le_trans hbound hpre.length_le
      have hF' : ∀ j ∈ is, j.content <+: F := fun j hj => hF j (by simp [hj])
      have hflags' : ∀ j ∈ is, j.metaFail = false ∧ j.metaFail2 = false :=
        fun j hj => hflags j (by simp [hj])
      have hrec := ih ⟨s.pos + (readLineFrom i.content s.pos).length, i.mtime⟩
        hflags' hchain' hpos' hF'
      have hFi : i.content <+: F := hF i (by simp)
      have key : readLineFrom i.content s.pos
          ++ F.drop (s.pos + (readLineFrom i.content s.pos).length) = F.drop s.pos := by
        obtain ⟨t, ht⟩ := hFi
        subst ht
        rw [List.drop_append_eq_append_drop, Nat.sub_eq_zero_of_le hbound, List.drop_zero]
        rw [List.drop_append_eq_append_drop, Nat.sub_eq_zero_of_le hple, List.drop_zero]
        rw [← List.append_assoc, readLineFrom_append_drop]
      constructor
      · show runFollow retry s (i :: is) = _
        simp only [runFollow, hstep, hrec.1]
        simp only [followTraceEvents, followFinalPos, finalMtime]
      · show (followChunks s.pos (i :: is)).flatten
            ++ F.drop (followFinalPos s.pos (i :: is)) = F.drop s.pos
        simp only [followChunks, followFinalPos, List.flatten_cons, List.append_assoc]
        rw [hrec.2]
        exact key

theorem content_prefix_lastContent :
    ∀ (ins : List PollIn), List.Chain' (fun a b => a.content <+: b.content) ins →
      ∀ i ∈ ins, i.content <+: lastContent [] ins := by
  intro ins
  induction ins with
  | nil => intro _ i hi; simp at hi
  | cons a is ih =>
      intro hchain i hi
      cases is with
      | nil =>
          have hia : i = a := by simpa using hi
          subst hia
          exact List.prefix_refl _
      | cons b is' =>
          have hab : a.content <+: b.content := (List.chain'_cons.mp hchain).1
          have hch' : List.Chain' (fun a b => a.content <+: b.content) (b :: is') :=
            (List.chain'_cons.mp hchain).2
          have hlast : lastContent [] (a :: b :: is') = lastContent [] (b :: is') := rfl
          rw [hlast]
          rcases List.mem_cons.mp hi with h | h
          · subst h
            exact hab.trans (ih hch' b (by simp))
          · exact ih hch' i h

theorem followFinalPos_eq_sum :
    ∀ (ins : List PollIn) (pos : Nat),
      followFinalPos pos ins = pos + ((followChunks pos ins).map List.length).sum := by
  intro ins
  induction ins with
  | nil => intro pos; simp [followFinalPos, followChunks]
  | cons i is ih =>
      intro pos
      simp only [followFinalPos, followChunks, List.map_cons, List.sum_cons]
      rw [ih]
      omega

/-- C1: for every file with `L ≥ 0` lines and every requested count
`N ≥ 0`, the initial tail outputs exactly the last `min N L` lines of
the file, in their original order, each normalized to single-linefeed
termination; in particular for `N = 0` the output is empty. -/

theorem C1_initial_tail (content : List Char) (n : Nat) :
    tail_file content n = (specTailLines content n).flatten
    ∧ (specTailLines content n).length = min n (splitLines content).length
    ∧ (∀ l ∈ specTailLines content n, l.getLast? = some '\n')
    ∧ tail_file content 0 = [] := by
  refine ⟨?_, ?_, ?_, ?_⟩
  · unfold tail_file
    rw [tailLines_eq_spec]
  · unfold specTailLines
    rw [lastN_length]
    simp
  · intro l hl
    unfold specTailLines lastN at hl
    have hmem := List.mem_of_mem_drop hl
    obtain ⟨x, _, rfl⟩ := List.mem_map.mp hmem
    exact normalizeLine_getLast x
  · unfold tail_file
    rw [tailLines_eq_spec]
    unfold specTailLines
    rw [lastN_zero]
    rfl

/-- Witness for C1 at the spec's own scenario: a file `"a\nb\nc\n"`
tailed with `N = 2` prints `"b\nc\n"`. -/

theorem C1_initial_tail_witness :
    tail_file ['a', '\n', 'b', '\n', 'c', '\n'] 2 = ['b', '\n', 'c', '\n'] := by
  have h := (C1_initial_tail ['a', '\n', 'b', '\n', 'c', '\n'] 2).1
  rw [h]
  decide

/-- C8: during the initial tail read the buffer's length never exceeds
`N` at every loop-iteration boundary (any prefix of the line sequence),
and when an insertion would exceed the bound the oldest element — the
head of the buffer — is the one evicted. -/

theorem C8_buffer_invariant (content : List Char) (n k : Nat) :
    (((splitLines content).take k).foldl (tailStep n) []).length ≤ n
    ∧ (∀ buf l, buf.length = n →
        tailStep n buf l = (buf ++ [normalizeLine l]).drop 1) := by
  constructor
  · have hgen : ∀ (ls : List (List Char)) (buf : List (List Char)), buf.length ≤ n →
        (ls.foldl (tailStep n) buf).length ≤ n := by
      intro ls
      induction ls with
      | nil => intro buf h; simpa using h
      | cons a ls ih => intro buf h; exact ih _ (tailStep_length n buf a h)
    exact hgen _ [] (by simp)
  · intro buf l hbe
    apply tailStep_eq_of_lt
    simp only [List.length_append, List.length_cons, List.length_nil, hbe]
    omega

/-- Witness for C8: with `N = 2` and a full buffer, inserting a new
line evicts the oldest element. -/

theorem C8_buffer_invariant_witness :
    tailStep 2 [['a', '\n'], ['b', '\n']] ['c'] =
      (([['a', '\n'], ['b', '\n']] ++ [normalizeLine ['c']]).drop 1) :=
  (C8_buffer_invariant [] 2 0).2 [['a', '\n'], ['b', '\n']] ['c'] rfl

/-- C5: on any poll where the observed modification time differs from
the last-seen value and the observed size is smaller than the cursor,
the event is treated as rotation: the handle is reopened on the file,
the cursor is reset to 0, a rotation notice is emitted, and subsequent
output reflects the new file's content from its own offset 0 (the next
read starts at offset 0 and the cursor advances from 0). -/

theorem C5_rotation (retry : Bool) (s : FollowState) (i : PollIn)
    (h1 : i.metaFail = false) (ho : i.openFail = false) (h2 : i.metaFail2 = false)
    (hmt : i.mtime ≠ s.lastMod) (hsz : i.content.length < s.pos) :
    followStep retry s i =
      .ok (⟨(readLineFrom i.content 0).length, i.mtime⟩,
        .rotationNotice ::
          (if readLineFrom i.content 0 = [] then [.sleepMs100]
           else [.emit (normalizeFollow (readLineFrom i.content 0))])) :=
  followStep_rotation retry s i h1 ho h2 hmt hsz

/-- Witness for C5: cursor at 5, the file now holds `"a\n"` (size 2)
with a new modification time — the poll emits the rotation notice and
the new file's first line, and the cursor becomes 2. -/

theorem C5_rotation_witness :
    followStep false ⟨5, 0⟩ ⟨['a', '\n'], 1, false, false, false⟩
      = .ok (⟨2, 1⟩, [.rotationNotice, .emit ['a', '\n']]) := by
  have h := C5_rotation false ⟨5, 0⟩ ⟨['a', '\n'], 1, false, false, false⟩
    rfl rfl rfl (by decide) (by decide)
  rw [h]
  decide

/-- C4: whenever the size observed at a poll is smaller than the
cursor (and the iteration's filesystem calls succeed), the poll emits a
truncation or rotation notice, and every chunk it emits comes from
offset 0 of the new content; the resulting cursor is at most the new
size — in particular strictly below the pre-shrink cursor value, so no
offset at or beyond the old cursor is read again this poll. -/

theorem C4_truncation_detection (retry : Bool) (s : FollowState) (i : PollIn)
    (h1 : i.metaFail = false) (ho : i.openFail = false) (h2 : i.metaFail2 = false)
    (hsz : i.content.length < s.pos) :
    ∃ s' evs, followStep retry s i = Except.ok (s', evs)
      ∧ (Event.rotationNotice ∈ evs ∨ Event.truncationNotice ∈ evs)
      ∧ s'.pos ≤ i.content.length
      ∧ (∀ l, Event.emit l ∈ evs → l = normalizeFollow (readLineFrom i.content 0)) := by
  by_cases hmt : i.mtime = s.lastMod
  · refine ⟨⟨0, i.mtime⟩, [.sleepMs100, .truncationNotice],
      followStep_truncation retry s i h1 h2 hmt hsz, Or.inr (by simp), by simp, ?_⟩
    intro l hl
    simp at hl
  · refine ⟨⟨(readLineFrom i.content 0).length, i.mtime⟩, _,
      followStep_rotation retry s i h1 ho h2 hmt hsz, Or.inl (by simp), ?_, ?_⟩
    · simpa using readLineFrom_pos_le i.content 0 (Nat.zero_le _)
    · intro l hl
      by_cases hch : readLineFrom i.content 0 = []
      · simp [hch] at hl
      · simp [hch] at hl
        exact hl

/-- Witness for C4: cursor at 5, file truncated in place to `"ab\n"`
(size 3, unchanged modification time) — the poll emits the truncation
notice and resets the cursor. -/

theorem C4_truncation_detection_witness :
    ∃ s' evs,
      followStep false ⟨5, 3⟩ ⟨['a', 'b', '\n'], 3, false, false, false⟩
        = Except.ok (s', evs)
      ∧ (Event.rotationNotice ∈ evs ∨ Event.truncationNotice ∈ evs)
      ∧ s'.pos ≤ (['a', 'b', '\n'] : List Char).length
      ∧ (∀ l, Event.emit l ∈ evs →
          l = normalizeFollow (readLineFrom ['a', 'b', '\n'] 0)) :=
  C4_truncation_detection false ⟨5, 3⟩ ⟨['a', 'b', '\n'], 3, false, false, false⟩
    rfl rfl rfl (by decide)

/-- C7 counterexample: content `"ab"` with no terminator is appended
and polled; follow mode emits `"ab"` as-is — no linefeed is appended,
so the emitted output is not single-linefeed-terminated, contradicting
the claim that follow mode normalizes exactly as the initial tail. -/

theorem C7_counterexample :
    followStep false ⟨0, 0⟩ ⟨['a', 'b'], 0, false, false, false⟩
      = .ok (⟨2, 0⟩, [.emit ['a', 'b']])
    ∧ (['a', 'b'] : List Char).getLast? ≠ some '\n'
    ∧ normalizeLine ['a', 'b'] = ['a', 'b', '\n'] := by decide

/-- C7 amended: in follow mode an emitted chunk has a `"\r\n"` ending
rewritten to a single linefeed and is otherwise emitted unchanged;
unlike the initial tail, no linefeed is appended to content lacking a
terminator. -/

theorem C7_amended_normalization (retry : Bool) (s : FollowState) (i : PollIn)
    (h1 : i.metaFail = false) (h2 : i.metaFail2 = false)
    (hpos : s.pos ≤ i.content.length) (hch : readLineFrom i.content s.pos ≠ []) :
    followStep retry s i =
      .ok (⟨s.pos + (readLineFrom i.content s.pos).length, i.mtime⟩,
           [.emit (normalizeFollow (readLineFrom i.content s.pos))])
    ∧ (endsCRLF (readLineFrom i.content s.pos) = true →
        normalizeFollow (readLineFrom i.content s.pos)
          = (readLineFrom i.content s.pos).dropLast.dropLast ++ ['\n'])
    ∧ (endsCRLF (readLineFrom i.content s.pos) = false →
        normalizeFollow (readLineFrom i.content s.pos)
          = readLineFrom i.content s.pos) := by
  refine ⟨?_, ?_, ?_⟩
  · rw [followStep_normal retry s i h1 h2 hpos, if_neg hch]
  · intro hc
    unfold normalizeFollow
    rw [hc]
    simp
  · intro hc
    unfold normalizeFollow
    rw [hc]
    simp

/-- Witness for C7 amended: a CRLF-terminated line `"x\r\n"` is
emitted as `"x\n"`. -/

theorem C7_amended_normalization_witness :
    followStep false ⟨0, 0⟩ ⟨['x', '\r', '\n'], 0, false, false, false⟩
      = .ok (⟨3, 0⟩, [.emit ['x', '\n']]) := by
  have h := (C7_amended_normalization false ⟨0, 0⟩
    ⟨['x', '\r', '\n'], 0, false, false, false⟩ rfl rfl (by decide) (by decide)).1
  rw [h]
  decide

/-- C3 counterexample: with the retry policy enabled, an open failure
at the rotation-detection reopen (main.rs line 203, `?`) and a
metadata failure at the truncation check (line 243, `?`) both
propagate as errors and terminate the follow loop, contradicting the
claim that every transient open or metadata failure is retried
indefinitely under the retry policy. -/

theorem C3_counterexample :
    followStep true ⟨5, 0⟩ ⟨[], 1, false, true, false⟩ = .error .openErr
    ∧ followStep true ⟨5, 0⟩ ⟨[], 0, false, false, true⟩ = .error .metaErr2 := by
  decide

/-- C3 amended: under the retry policy the initial open (lines
170-181) and the per-poll metadata query (lines 209-217) are retried
with 1-second backoff and never terminate the loop, and with retry
disabled they are fatal; however the reopen performed on rotation
detection and the metadata query of the truncation check propagate
errors regardless of the retry policy. -/

theorem C3_amended_retry_semantics (retry : Bool) (s : FollowState) (i : PollIn)
    (fails : List Bool) :
    (i.metaFail = true → retry = true →
        followStep retry s i = .ok (s, [.logRetry, .sleepSec1]))
    ∧ (i.metaFail = true → retry = false →
        followStep retry s i = .error .metaErr)
    ∧ (i.metaFail = false → i.openFail = true → i.mtime ≠ s.lastMod →
        i.content.length < s.pos → followStep retry s i = .error .openErr)
    ∧ (i.metaFail = false → i.metaFail2 = true → i.mtime = s.lastMod →
        i.content.length ≤ s.pos → followStep retry s i = .error .metaErr2)
    ∧ (∀ e, followOpen true fails ≠ Except.error e)
    ∧ (fails.head? = some true → followOpen false fails = .error .openErr) := by
  refine ⟨?_, ?_, ?_, ?_, ?_, ?_⟩
  · intro hm hr
    subst hr
    unfold followStep
    rw [hm]
    rfl
  · intro hm hr
    subst hr
    unfold followStep
    rw [hm]
    rfl
  · intro hm ho hmt hsz
    unfold followStep
    rw [hm]
    simp only [Bool.false_eq_true, if_false]
    rw [if_pos ⟨hmt, hsz⟩, ho]
    rfl
  · intro hm h2 hmt hsz
    unfold followStep
    rw [hm]
    simp only [Bool.false_eq_true, if_false]
    rw [if_neg (fun hc => hc.1 hmt)]
    exact followRead_metaErr s.pos i.mtime i []
      (readLineFrom_empty i.content s.pos hsz) h2
  · induction fails with
    | nil => intro e h; simp [followOpen] at h
    | cons b rest ih =>
        cases b with
        | false => intro e h; simp [followOpen] at h
        | true =>
            intro e h
            unfold followOpen at h
            rw [if_pos rfl] at h
            cases hre : followOpen true rest with
            | ok k => rw [hre] at h; simp at h
            | error e' => exact ih e' hre
  · intro hh
    cases fails with
    | nil => simp at hh
    | cons b rest =>
        cases b with
        | false => simp at hh
        | true => rfl

/-- Witness for C3 amended: a metadata failure under retry logs,
sleeps 1 s and leaves the state unchanged. -/

theorem C3_amended_retry_semantics_witness :
    followStep true ⟨0, 0⟩ ⟨[], 0, true, false, false⟩
      = .ok (⟨0, 0⟩, [.logRetry, .sleepSec1]) :=
  (C3_amended_retry_semantics true ⟨0, 0⟩ ⟨[], 0, true, false, false⟩ []).1 rfl rfl

/-- C2 counterexample: the line `"xy\n"` is written in two separate
appends, `"xy"` then `"\n"`.  The first poll already emits the
fragment `"xy"` — before its terminator has arrived — and the line is
never emitted as one piece, contradicting the claim that a line
written in two separate writes is emitted only once and only after its
terminator arrives. -/

theorem C2_counterexample :
    runFollow false ⟨0, 0⟩
      [⟨['x', 'y'], 1, false, false, false⟩,
       ⟨['x', 'y', '\n'], 2, false, false, false⟩]
      = .ok (⟨3, 2⟩, [.emit ['x', 'y'], .emit ['\n']]) := by decide

/-- C2 amended: in follow mode, over any fault-free append-only run
starting with the cursor inside the file, every appended byte is
consumed exactly once and in order: the consumed chunks concatenate to
exactly the final content between the initial and final cursor, so
complete lines appear once each, in the order written, with no
duplication and no loss — but content present without a terminator at
a poll is emitted immediately as a partial fragment, with only the
remainder emitted after the terminator arrives. -/

theorem C2_amended_exactly_once (retry : Bool) (s : FollowState) (ins : List PollIn)
    (hflags : ∀ i ∈ ins, i.metaFail = false ∧ i.metaFail2 = false)
    (hchain : List.Chain' (fun a b => a.content <+: b.content) ins)
    (hpos : ∀ i ∈ ins.take 1, s.pos ≤ i.content.length) :
    runFollow retry s ins
        = .ok (⟨followFinalPos s.pos ins, finalMtime s.lastMod ins⟩,
               followTraceEvents s.pos ins)
    ∧ (followChunks s.pos ins).flatten
        ++ (lastContent [] ins).drop (followFinalPos s.pos ins)
        = (lastContent [] ins).drop s.pos :=
  runFollow_spec retry (lastContent [] ins) ins s hflags hchain hpos
    (content_prefix_lastContent ins hchain)

/-- Witness for C2 amended: the two-write scenario `"ab"` then
`"ab\n"` runs fault-free and consumes each byte once. -/

theorem C2_amended_exactly_once_witness :
    runFollow false ⟨0, 0⟩
      [⟨['a', 'b'], 1, false, false, false⟩,
       ⟨['a', 'b', '\n'], 2, false, false, false⟩]
      = .ok (⟨3, 2⟩, [.emit ['a', 'b'], .emit ['\n']]) := by
  have h := (C2_amended_exactly_once false ⟨0, 0⟩
    [⟨['a', 'b'], 1, false, false, false⟩,
     ⟨['a', 'b', '\n'], 2, false, false, false⟩]
    (by decide)
    (List.chain'_cons.mpr ⟨⟨['\n'], rfl⟩, List.chain'_singleton _⟩)
    (by decide)).1
  rw [h]
  decide

/-- C10 counterexample: appending `"a\r\n"` advances the cursor by 3
(the bytes read) while only 2 bytes (`"a\n"`, after CRLF
normalization) are emitted, so the cursor does not equal the
follow-start offset plus the total bytes emitted. -/

theorem C10_counterexample :
    runFollow false ⟨0, 0⟩ [⟨['a', '\r', '\n'], 1, false, false, false⟩]
      = .ok (⟨3, 1⟩, [.emit ['a', '\n']])
    ∧ (3 : Nat) ≠ 0 + (['a', '\n'] : List Char).length := by decide

/-- C10 amended: absent rotation/truncation resets, the cursor equals
the follow-start offset plus the total bytes consumed by reads — the
cursor advances by exactly the byte count of each read, which exceeds
the bytes emitted when CRLF normalization shrinks a chunk — and no
file byte is ever consumed twice (the chunks tile the final content
between the start and final cursor); content read without a terminator
is emitted immediately as a partial line in its own poll. -/

theorem C10_amended_cursor_accounting (retry : Bool) (s : FollowState)
    (ins : List PollIn)
    (hflags : ∀ i ∈ ins, i.metaFail = false ∧ i.metaFail2 = false)
    (hchain : List.Chain' (fun a b => a.content <+: b.content) ins)
    (hpos : ∀ i ∈ ins.take 1, s.pos ≤ i.content.length) :
    (∃ m, runFollow retry s ins
        = .ok (⟨s.pos + ((followChunks s.pos ins).map List.length).sum, m⟩,
               followTraceEvents s.pos ins))
    ∧ (followChunks s.pos ins).flatten
        ++ (lastContent [] ins).drop
            (s.pos + ((followChunks s.pos ins).map List.length).sum)
        = (lastContent [] ins).drop s.pos
    ∧ (∀ (s' : FollowState) (i : PollIn), i.metaFail = false → i.metaFail2 = false →
        s'.pos ≤ i.content.length → readLineFrom i.content s'.pos ≠ [] →
        followStep retry s' i
          = .ok (⟨s'.pos + (readLineFrom i.content s'.pos).length, i.mtime⟩,
                 [.emit (normalizeFollow (readLineFrom i.content s'.pos))])) := by
  have h := runFollow_spec retry (lastContent [] ins) ins s hflags hchain hpos
    (content_prefix_lastContent ins hchain)
  rw [followFinalPos_eq_sum ins s.pos] at h
  refine ⟨⟨finalMtime s.lastMod ins, h.1⟩, h.2, ?_⟩
  intro s' i h1 h2 hp hch
  rw [followStep_normal retry s' i h1 h2 hp, if_neg hch]

/-- Witness for C10 amended: a single poll reading the unterminated
byte `"k"` advances the cursor by the one byte read and emits it
immediately. -/

theorem C10_amended_cursor_accounting_witness :
    ∃ m, runFollow false ⟨0, 0⟩ [⟨['k'], 1, false, false, false⟩]
      = .ok (⟨0 + ((followChunks 0 [⟨['k'], 1, false, false, false⟩]).map
               List.length).sum, m⟩,
             followTraceEvents 0 [⟨['k'], 1, false, false, false⟩]) :=
  (C10_amended_cursor_accounting false ⟨0, 0⟩ [⟨['k'], 1, false, false, false⟩]
    (by decide) (List.chain'_singleton _) (by decide)).1

/-- C9: invoked with fewer than the required arguments (no filename),
the program prints a usage message listing all three flags to standard
error, exits with status 0, and performs no file access (it never
reaches the `run` outcome that the file phase requires). -/

theorem C9_usage_on_missing_args (prog : String) :
    mainStart prog [] = .usage (usageLines prog)
    ∧ startExit (mainStart prog []) = some 0
    ∧ (∃ l ∈ usageLines prog, "-f".data <:+: l.data)
    ∧ (∃ l ∈ usageLines prog, "-n".data <:+: l.data)
    ∧ (∃ l ∈ usageLines prog, "--retry".data <:+: l.data)
    ∧ ∀ f c, mainStart prog [] ≠ .run f c := by
  refine ⟨rfl, rfl, ?_, ?_, ?_, ?_⟩
  · refine ⟨"  -f              Follow mode: output appended data as the file grows",
      ?_, ?_⟩
    · simp [usageLines]
    · decide
  · refine ⟨"  -n <num_lines>  Output the last NUM lines (default: 10)", ?_, ?_⟩
    · simp [usageLines]
    · decide
  · refine ⟨"  --retry         Keep trying to open the file if it is not accessible",
      ?_, ?_⟩
    · simp [usageLines]
    · decide
  · intro f c
    simp [mainStart]

/-- Witness for C9 at a concrete program name. -/

theorem C9_usage_on_missing_args_witness :
    mainStart "rail" [] = .usage (usageLines "rail")
    ∧ startExit (mainStart "rail" []) = some 0 :=
  ⟨(C9_usage_on_missing_args "rail").1, (C9_usage_on_missing_args "rail").2.1⟩

/-- C6 (code bug): with retry active and a failing initial tail, the
code logs, prints "Retrying in 1 second...", sleeps once — and then
proceeds without ever re-invoking `tail_file`: exactly one invocation
happens for every retry/failure combination, so the initial tail is
never "retried until it succeeds" as both the claim and the code's own
printed message promise.  The non-retry half of the claim (termination
with non-zero status) does hold. -/

theorem C6_no_tail_retry :
    mainTailPhase true true = (.proceed, 1, [.logRetry, .sleepSec1])
    ∧ mainTailPhase false true = (.exitOne, 1, [.logRetry])
    ∧ (∀ retry tailFails, (mainTailPhase retry tailFails).2.1 = 1) := by
  refine ⟨rfl, rfl, ?_⟩
  intro retry tailFails
  unfold mainTailPhase
  cases tailFails <;> cases retry <;> rfl

end Rail
